import Mathlib

/-!
# Verification of the GUI bisection orchestration layer

Shallow embedding of `gui/mozregui/bisection.py`: the Qt-based orchestration
layer that drives a build bisection on a worker thread
(`GuiBuildDownloadManager`, `GuiTestRunner`, `GuiBisector`, `BisectRunner`).

Methods inherited from the base classes (`BuildDownloadManager.cancel`,
`BuildDownloadManager.download`, the `Bisection` result-code constants,
`TestRunner`) live outside this repository slice; where needed they are
modelled from the specification, marked `Modelled from the spec:` in their
doc comment.

The asynchronous Qt signal/slot chain of `GuiBisector`
(`_bisect_next` → `download_finished` → `_build_dl_finished` → `_evaluate` →
`evaluate_finished` → `_evaluate_finished` → loop) is embedded as a
script-driven trace function `bisectSteps`: each `StepScript` entry supplies
the external responses (midpoint search outcome, `init_handler` result code,
build info, the delivered download-completion task, the user verdict and the
`handle_verdict` result code) for one step of the loop, and the function
returns the final bisector state together with the list of emitted events.
-/

namespace MozReg

/-- Result codes of the external `Bisection` class.
Modelled from the spec: `ResultCode` enumeration {running, no-data,
finished, exception}; the numeric values of `RUNNING`, `NO_DATA` and
`FINISHED` come from the external `mozregression.bisector.Bisection`
class; only their distinctness matters here. -/
def Bisection.RUNNING : Int := 0

/-- Modelled from the spec: the `no-data` terminal code of `Bisection`. -/
def Bisection.NO_DATA : Int := 1

/-- Modelled from the spec: the `finished` terminal code of `Bisection`. -/
def Bisection.FINISHED : Int := 2

/-- `Bisection.EXCEPTION = -1`, the sentinel terminal code added at the top
of `bisection.py` ("new possible value of bisection end"). -/
def Bisection.EXCEPTION : Int := -1

/-- A download task as seen through its accessors `get_dest()`,
`is_canceled()` and `error()` (the spec's `DownloadEntry`:
destination key, cancelled flag, optional error). -/
structure DownloadEntry where
  dest : String
  canceled : Bool
  error : Option String
deriving DecidableEq, Repr

/-- Build info dictionary produced by the handler's `build_infos`: the
download URL, the download file name, and the `build_path` key that
`focus_download` writes (absent before that). -/
structure BuildInfo where
  build_url : String
  fname : String
  build_path : Option String
deriving DecidableEq, Repr

/-- State of a `GuiBuildDownloadManager`: the destination directory and the
tracked download tasks (the base class keeps them in a dict keyed by
destination, so destinations are distinct; that invariant is taken as a
hypothesis where it matters). -/
structure GuiBuildDownloadManagerState where
  destdir : String
  downloads : List DownloadEntry
deriving DecidableEq, Repr

/-- Modelled from the spec: `BuildDownloadManager.get_dest` computes the
destination path of a download file inside the destination directory. -/
def get_dest (destdir fname : String) : String :=
  destdir ++ "/" ++ fname

/-- Modelled from the spec: `BuildDownloadManager.cancel(cancel_if)` sets
the cancelled flag of every tracked download matching the predicate
(cooperative cancellation; idempotent on already-cancelled tasks). -/
def cancel (m : GuiBuildDownloadManagerState) (cancel_if : DownloadEntry → Bool) :
    GuiBuildDownloadManagerState :=
  { m with downloads :=
      m.downloads.map fun dl =>
        if cancel_if dl then { dl with canceled := true } else dl }

/-- Modelled from the spec: `BuildDownloadManager.download` starts (and
begins tracking) a download for the target destination if one is not
already tracked; the returned flag is true exactly when a new task was
started (which is when the `download_started` event fires). -/
def download (m : GuiBuildDownloadManagerState) (dest : String) :
    GuiBuildDownloadManagerState × Bool :=
  if m.downloads.any (fun dl => dl.dest == dest) then
    (m, false)
  else
    (⟨m.destdir, ⟨dest, false, none⟩ :: m.downloads⟩, true)

/-- Events emitted by the layer (Qt signals), tagged with the step number
where the source signal carries it. -/
inductive Event where
  | started
  | step_started (n : Nat)
  | step_build_found (n : Nat)
  | step_finished (n : Nat) (verdict : String)
  | finished (code : Int)
  | download_started
  | download_finished
  | evaluate_started
  | evaluate_finished
deriving DecidableEq, Repr

/-- `GuiBuildDownloadManager.focus_download(build_info)`: compute the
destination for the build, cancel every tracked download at a different
destination, start (or keep tracking) the download for this destination,
and set `build_info['build_path']` to the destination. Returns the new
manager state, the updated build info, and the download events emitted. -/
def focus_download (m : GuiBuildDownloadManagerState) (bi : BuildInfo) :
    GuiBuildDownloadManagerState × BuildInfo × List Event :=
  let dest := get_dest m.destdir bi.fname
  let m1 := cancel m (fun dl => dest != dl.dest)
  let r := download m1 dest
  (r.1, { bi with build_path := some dest },
   if r.2 then [Event.download_started] else [])

/-- Launcher side effects performed by the test runner (the external
`Launcher` collaborator's `start`/`stop`). -/
inductive LauncherAction where
  | launch_started (handle : Nat)
  | launch_stopped (handle : Nat)
deriving DecidableEq, Repr

/-- Mutable state of a `GuiTestRunner`: the captured app info, the recorded
verdict, and the in-flight launcher handle (`None` when no evaluation is
in flight). -/
structure GuiTestRunnerState where
  app_info : List (String × String)
  verdict : Option String
  launcher : Option Nat
deriving DecidableEq, Repr

/-- `GuiTestRunner.evaluate(build_info)`: create and start a launcher for
the build, capture its app info, and emit `evaluate_started`. The launcher
handle and the app info it reports are supplied by the external launcher
collaborator. -/
def GuiTestRunner.evaluate (st : GuiTestRunnerState) (handle : Nat)
    (info : List (String × String)) :
    GuiTestRunnerState × List Event × List LauncherAction :=
  ({ st with launcher := some handle, app_info := info },
   [Event.evaluate_started], [LauncherAction.launch_started handle])

/-- `GuiTestRunner.finish(verdict)`: `assert self.launcher` (an
`AssertionError` when no evaluation is in flight), then stop the launcher,
record the verdict, emit `evaluate_finished`, and clear the launcher
field. -/
def GuiTestRunner.finish (st : GuiTestRunnerState) (verdict : String) :
    Except String (GuiTestRunnerState × List Event × List LauncherAction) :=
  match st.launcher with
  | none => Except.error "AssertionError: assert self.launcher"
  | some handle =>
      Except.ok ({ st with verdict := some verdict, launcher := none },
        [Event.evaluate_finished], [LauncherAction.launch_stopped handle])

/-- Mutable state of a `GuiBisector` (the fields set in `__init__` and
mutated by the slots): the download manager, `mid`, `build_infos`,
`_step_num` and `error`. -/
structure GuiBisectorState where
  download_manager : GuiBuildDownloadManagerState
  mid : Option Nat
  build_infos : Option BuildInfo
  step_num : Nat
  error : Option String
deriving DecidableEq, Repr

/-- `GuiBisector.__init__` state: no bisection yet, `_step_num = 0`, no
error, empty download manager over the download directory. -/
def GuiBisector.initState (destdir : String) : GuiBisectorState :=
  { download_manager := ⟨destdir, []⟩
    mid := none
    build_infos := none
    step_num := 0
    error := none }

/-- `GuiBisector._finish_on_exception`: store the captured exception info
in `self.error` and emit `finished(bisection, Bisection.EXCEPTION)`. -/
def GuiBisector.finish_on_exception (st : GuiBisectorState) (e : String) :
    GuiBisectorState × List Event :=
  ({ st with error := some e }, [Event.finished Bisection.EXCEPTION])

/-- The guard at the top of `GuiBisector._build_dl_finished(dl)`: the event
leads to `QTimer.singleShot(0, self._evaluate)` (evaluation scheduled,
result `true`) only when the task's destination equals the focused
`build_infos['build_path']` and the task is neither cancelled nor in
error; otherwise the slot returns early (result `false`, nothing else
happens). -/
def build_dl_scheduled (bi : BuildInfo) (dl : DownloadEntry) : Bool :=
  if !(some dl.dest == bi.build_path) then false
  else if dl.canceled || dl.error.isSome then false
  else true

/-- Outcome of a `Bisection.search_mid_point` call: either a raised
`MozRegressionError` (caught by `_bisect_next`'s `except` clause) or a
midpoint. -/
inductive SearchOutcome where
  | raised (e : String)
  | found (mid : Nat)
deriving DecidableEq, Repr

/-- External responses driving one iteration of the bisection loop: the
outcome of `Bisection.search_mid_point` (a raised `MozRegressionError` or
a midpoint), the `init_handler` result code, the build info the handler
produces, the download task whose `download_finished` completion is
delivered for this step, the user verdict, and the `handle_verdict`
result code. -/
structure StepScript where
  search : SearchOutcome
  initResult : Int
  build_url : String
  fname : String
  dl : DownloadEntry
  verdict : String
  verdictResult : Int
deriving DecidableEq, Repr

/-- One `GuiBisector._bisect_next` call driven by a step script: increment
`_step_num`, emit `step_started`; a raised search becomes
`_finish_on_exception`; a non-`running` `init_handler` result is emitted
as `finished`; otherwise `build_infos` is computed, `focus_download` is
called and `step_build_found` is emitted. Returns the new state, the
events emitted, and the focused build info when the step now awaits its
download completion (`none` when the run just terminated). -/
def GuiBisector.bisect_next (st : GuiBisectorState) (s : StepScript) :
    GuiBisectorState × List Event × Option BuildInfo :=
  let n := st.step_num + 1
  let st1 := { st with step_num := n }
  match s.search with
  | SearchOutcome.raised e =>
      let r := GuiBisector.finish_on_exception st1 e
      (r.1, Event.step_started n :: r.2, none)
  | SearchOutcome.found mid =>
      let st2 := { st1 with mid := some mid }
      if s.initResult != Bisection.RUNNING then
        (st2, [Event.step_started n, Event.finished s.initResult], none)
      else
        let bi0 : BuildInfo := ⟨s.build_url, s.fname, none⟩
        let r := focus_download st2.download_manager bi0
        ({ st2 with download_manager := r.1, build_infos := some r.2.1 },
         Event.step_started n :: r.2.2 ++ [Event.step_build_found n],
         some r.2.1)

/-- One `GuiBisector._evaluate_finished` call driven by a step script:
update the handler's build info (external), emit `step_finished` with the
recorded verdict, fold the verdict in via `handle_verdict`; a
non-`running` result is emitted as `finished` (returned flag `false`),
otherwise `_bisect_next` is scheduled again (returned flag `true`). -/
def GuiBisector.evaluate_finished_slot (st : GuiBisectorState)
    (verdict : String) (verdictResult : Int) :
    GuiBisectorState × List Event × Bool :=
  if verdictResult != Bisection.RUNNING then
    (st, [Event.step_finished st.step_num verdict,
          Event.finished verdictResult], false)
  else
    (st, [Event.step_finished st.step_num verdict], true)

/-- The bisection loop from `_bisect_next` on, driven by a list of step
scripts (one per iteration the environment answers): each step runs
`bisect_next`; when it awaits a download, the completion event for the
script's task is delivered (`download_finished`), filtered by the
`_build_dl_finished` guard; a passing completion schedules `_evaluate`
(which emits `evaluate_started`), the driving context answers through
`GuiTestRunner.finish` (which emits `evaluate_finished`), and
`_evaluate_finished` folds the verdict in and either terminates or loops.
A dropped completion stalls the run (the source's `todo handle this`),
and an exhausted script leaves the run suspended. -/
def bisectSteps (st : GuiBisectorState) : List StepScript → GuiBisectorState × List Event
  | [] => (st, [])
  | s :: rest =>
      let r := GuiBisector.bisect_next st s
      match r.2.2 with
      | none => (r.1, r.2.1)
      | some bi =>
          if build_dl_scheduled bi s.dl then
            let e := GuiBisector.evaluate_finished_slot r.1 s.verdict s.verdictResult
            if e.2.2 then
              let w := bisectSteps e.1 rest
              (w.1, r.2.1 ++ [Event.download_finished, Event.evaluate_started,
                Event.evaluate_finished] ++ e.2.1 ++ w.2)
            else
              (e.1, r.2.1 ++ [Event.download_finished, Event.evaluate_started,
                Event.evaluate_finished] ++ e.2.1)
          else
            (r.1, r.2.1 ++ [Event.download_finished])

/-- `GuiBisector._bisect`: create the `Bisection`, reset `_step_num` to 0,
emit `started`, and (after the 200 ms delay) run `_bisect_next`; the rest
of the run follows the script. -/
def GuiBisector.bisect_run (st : GuiBisectorState) (script : List StepScript) :
    GuiBisectorState × List Event :=
  let r := bisectSteps { st with step_num := 0 } script
  (r.1, Event.started :: r.2)

/-- A whole run of a fresh `GuiBisector` over a download directory. -/
def runTrace (destdir : String) (script : List StepScript) :
    GuiBisectorState × List Event :=
  GuiBisector.bisect_run (GuiBisector.initState destdir) script

/-- The step indices carried by the `step_started` events of a trace. -/
def stepIndices (evs : List Event) : List Nat :=
  evs.filterMap fun e =>
    match e with
    | Event.step_started n => some n
    | _ => none

/-- The codes carried by the `finished` events of a trace. -/
def finishedCodes (evs : List Event) : List Int :=
  evs.filterMap fun e =>
    match e with
    | Event.finished c => some c
    | _ => none

/-- Whether an event is a download or an evaluation event. -/
def isDlOrEval (e : Event) : Bool :=
  match e with
  | Event.download_started | Event.download_finished
  | Event.evaluate_started | Event.evaluate_finished => true
  | _ => false

/-- A step script whose step keeps the run going: the midpoint search
succeeds, `init_handler` answers `running`, the delivered download
completion matches the focused destination uncancelled and error-free, and
`handle_verdict` answers `running` again. -/
def ContinuesStep (destdir : String) (s : StepScript) : Prop :=
  (∃ mid, s.search = SearchOutcome.found mid) ∧
  s.initResult = Bisection.RUNNING ∧
  s.dl.dest = get_dest destdir s.fname ∧
  s.dl.canceled = false ∧
  s.dl.error = none ∧
  s.verdictResult = Bisection.RUNNING

/-- State of a `BisectRunner`: the current `GuiBisector` (if a run is
active) and the worker `QThread` handle (presence only). -/
structure BisectRunnerState where
  bisector : Option GuiBisectorState
  thread : Option Unit
deriving DecidableEq, Repr

/-- `BisectRunner.stop()`: if a bisector is held, call
`download_manager.cancel()` (no predicate: cancel every tracked download)
and drop the bisector; if a thread is held, quit, join and drop it.
The second component is the final, cancelled download list of the run
that was stopped (empty when there was none). -/
def BisectRunner.stop (st : BisectRunnerState) :
    BisectRunnerState × List DownloadEntry :=
  match st.bisector with
  | some b =>
      ({ bisector := none, thread := none },
       (cancel b.download_manager (fun _ => true)).downloads)
  | none => ({ bisector := none, thread := none }, [])

/-- Observable outcome categories shown by `BisectRunner.bisection_finished`
(warning dialog / critical dialog with the captured error / information
dialog). -/
inductive Outcome where
  | not_enough_data
  | failure (err : Option String)
  | complete
deriving DecidableEq, Repr

/-- `BisectRunner.bisection_finished(bisection, resultcode)`: map
`Bisection.NO_DATA` to a "not enough data" warning, `Bisection.EXCEPTION`
to a critical failure dialog carrying `self.bisector.error`, and any other
code to a "bisection is done" information dialog; then call `self.stop()`. -/
def BisectRunner.bisection_finished (st : BisectRunnerState) (resultcode : Int) :
    Outcome × BisectRunnerState × List DownloadEntry :=
  let outcome :=
    if resultcode == Bisection.NO_DATA then Outcome.not_enough_data
    else if resultcode == Bisection.EXCEPTION then
      Outcome.failure (st.bisector.bind GuiBisectorState.error)
    else Outcome.complete
  (outcome, BisectRunner.stop st)

/-- Answer to the `QMessageBox.question` evaluation dialog, which offers
exactly the `Yes` and `No` standard buttons. -/
inductive QuestionAnswer where
  | yes
  | no
deriving DecidableEq, Repr

/-- The verdict computed by `BisectRunner.evaluate`: `verdict = "g"`,
overwritten with `"b"` when the answer is `No`; the result is passed to
`self.bisector.test_runner.finish(verdict)`. -/
def BisectRunner.evaluate_verdict (res : QuestionAnswer) : String :=
  let verdict := "g"
  if res == QuestionAnswer.no then "b" else verdict

/-- `BisectRunner.evaluate`: ask the user, compute the verdict and pass it
to the test runner's `finish`. -/
def BisectRunner.evaluate (res : QuestionAnswer) (tr : GuiTestRunnerState) :
    String × Except String (GuiTestRunnerState × List Event × List LauncherAction) :=
  let verdict := BisectRunner.evaluate_verdict res
  (verdict, GuiTestRunner.finish tr verdict)

/-- A concrete bisector state whose run captured the error "boom". -/
def bisectorW : GuiBisectorState :=
  { download_manager := ⟨"d", []⟩
    mid := none
    build_infos := none
    step_num := 0
    error := some "boom" }

/-- A concrete runner state holding `bisectorW` and a live worker thread. -/
def runnerW : BisectRunnerState := ⟨some bisectorW, some ()⟩

/-- A step script whose midpoint search raises a `MozRegressionError`
"boom". -/
def stepRaisesW : StepScript :=
  ⟨SearchOutcome.raised "boom", Bisection.RUNNING, "u", "f",
   ⟨"x", false, none⟩, "g", Bisection.RUNNING⟩

/-- A step script whose `init_handler` immediately answers `finished`. -/
def stepTerminalW : StepScript :=
  ⟨SearchOutcome.found 5, Bisection.FINISHED, "u", "f",
   ⟨"x", false, none⟩, "g", Bisection.RUNNING⟩

/-- The bisector state right after a `_bisect_next` call that focused a
download: step counter advanced, midpoint stored, download manager updated
by `focus_download`, `build_infos` recorded, error untouched. -/
def afterFocusState (st : GuiBisectorState) (s : StepScript) (mid : Nat) :
    GuiBisectorState :=
  ⟨(focus_download st.download_manager ⟨s.build_url, s.fname, none⟩).1,
   some mid,
   some (focus_download st.download_manager ⟨s.build_url, s.fname, none⟩).2.1,
   st.step_num + 1, st.error⟩

/-- The events emitted by a `_bisect_next` call that focused a download:
`step_started`, then whatever download event `focus_download` emitted, then
`step_build_found`. -/
def focusStepEvents (st : GuiBisectorState) (s : StepScript) : List Event :=
  Event.step_started (st.step_num + 1) ::
    (focus_download st.download_manager ⟨s.build_url, s.fname, none⟩).2.2 ++
    [Event.step_build_found (st.step_num + 1)]

/-- In a download list with pairwise distinct destinations, after the
cancellation pass away from `dest` at most one entry stays uncancelled. -/
lemma cancel_away_filter_le_one (l : List DownloadEntry) (dest : String)
    (h : (l.map DownloadEntry.dest).Nodup) :
    ((l.map fun dl =>
        if dest != dl.dest then { dl with canceled := true } else dl).filter
      (fun dl => !dl.canceled)).length ≤ 1 := by
  induction l with
  | nil => simp
  | cons a t ih =>
    simp only [List.map_cons, List.nodup_cons, List.mem_map] at h
    obtain ⟨ha, ht⟩ := h
    by_cases hd : dest = a.dest
    · have hhead : (if dest != a.dest then { a with canceled := true } else a) = a := by
        simp [hd]
      have htail : (t.map fun dl =>
          if dest != dl.dest then { dl with canceled := true } else dl).filter
            (fun dl => !dl.canceled) = [] := by
        refine List.filter_eq_nil_iff.mpr fun dl hdl => ?_
        rw [List.mem_map] at hdl
        obtain ⟨x, hx, hxe⟩ := hdl
        have hne : dest ≠ x.dest := fun hxx => ha ⟨x, hx, by rw [← hxx, hd]⟩
        simp [← hxe, hne]
      simp only [List.map_cons, hhead, List.filter_cons, htail]
      by_cases hc : a.canceled = true
      · simp [hc]
      · simp [hc]
    · have hhead : (if dest != a.dest then { a with canceled := true } else a) =
          { a with canceled := true } := by simp [hd]
      simp only [List.map_cons, hhead, List.filter_cons]
      simpa using ih ht

/-- C3: after `focus_download(build_info)` returns, every tracked download
whose destination differs from the computed destination has been cancelled
by the `cancel(cancel_if=...)` pass; when destinations are pairwise
distinct (the base class tracks downloads in a dict keyed by destination)
at most one tracked download is uncancelled, and any uncancelled one
targets the computed destination. -/
theorem focus_download_exclusive (m : GuiBuildDownloadManagerState)
    (bi : BuildInfo)
    (hnd : (m.downloads.map DownloadEntry.dest).Nodup) :
    (∀ dl ∈ (focus_download m bi).1.downloads,
        dl.dest ≠ get_dest m.destdir bi.fname → dl.canceled = true) ∧
    ((focus_download m bi).1.downloads.filter
        (fun dl => !dl.canceled)).length ≤ 1 ∧
    (∀ dl ∈ (focus_download m bi).1.downloads,
        dl.canceled = false → dl.dest = get_dest m.destdir bi.fname) := by
  set dest := get_dest m.destdir bi.fname with hdest
  have hmap : ∀ dl ∈ (m.downloads.map fun dl =>
      if dest != dl.dest then { dl with canceled := true } else dl),
      (dl.dest ≠ dest → dl.canceled = true) ∧
      (dl.canceled = false → dl.dest = dest) := by
    intro dl hdl
    rw [List.mem_map] at hdl
    obtain ⟨x, _, hx⟩ := hdl
    by_cases hxd : dest = x.dest
    · have hdx : dl = x := by rw [← hx]; simp [hxd]
      subst hdx
      exact ⟨fun hne => absurd hxd.symm hne, fun _ => hxd.symm⟩
    · have hdx : dl = { x with canceled := true } := by rw [← hx]; simp [hxd]
      subst hdx
      exact ⟨fun _ => rfl, fun hfalse => absurd hfalse (by simp)⟩
  have hcanc : (cancel m fun dl => dest != dl.dest).downloads =
      m.downloads.map fun dl =>
        if dest != dl.dest then { dl with canceled := true } else dl := rfl
  by_cases hany : ((cancel m fun dl => dest != dl.dest).downloads.any
      (fun dl => dl.dest == dest)) = true
  · have hfd : (focus_download m bi).1 = cancel m fun dl => dest != dl.dest := by
      simp only [focus_download, download, ← hdest, hany, if_pos]
    rw [hfd, hcanc]
    refine ⟨fun dl hdl => ((hmap dl hdl).1), ?_, fun dl hdl => ((hmap dl hdl).2)⟩
    exact cancel_away_filter_le_one m.downloads dest hnd
  · have hfd : (focus_download m bi).1.downloads =
        ⟨dest, false, none⟩ :: (cancel m fun dl => dest != dl.dest).downloads := by
      simp only [focus_download, download, ← hdest]
      rw [if_neg hany]
    rw [hfd, hcanc] at *
    have hallc : ∀ dl ∈ (m.downloads.map fun dl =>
        if dest != dl.dest then { dl with canceled := true } else dl),
        dl.canceled = true := by
      intro dl hdl
      by_cases hc : dl.canceled = true
      · exact hc
      · exfalso
        have hd : dl.dest = dest :=
          (hmap dl hdl).2 (by simpa using hc)
        exact hany (List.any_eq_true.mpr ⟨dl, hdl, by simp [hd]⟩)
    have htail : ((m.downloads.map fun dl =>
        if dest != dl.dest then { dl with canceled := true } else dl).filter
        (fun dl => !dl.canceled)) = [] :=
      List.filter_eq_nil_iff.mpr fun dl hdl => by simp [hallc dl hdl]
    refine ⟨?_, ?_, ?_⟩
    · intro dl hdl hne
      rcases List.mem_cons.mp hdl with hgood | hrest
      · exact absurd (by rw [hgood]) hne
      · exact (hmap dl hrest).1 hne
    · rw [List.filter_cons, htail]
      simp
    · intro dl hdl hfalse
      rcases List.mem_cons.mp hdl with hgood | hrest
      · rw [hgood]
      · exact (hmap dl hrest).2 hfalse

/-- Witness for `focus_download_exclusive`: focusing build "b" over a
manager tracking downloads at two distinct destinations cancels the other
one and leaves at most one live download, at the computed destination. -/
theorem focus_download_exclusive_witness :
    ((focus_download ⟨"d", [⟨"d/a", false, none⟩]⟩ ⟨"u", "b", none⟩).1.downloads.filter
      (fun dl => !dl.canceled)).length ≤ 1 :=
  (focus_download_exclusive ⟨"d", [⟨"d/a", false, none⟩]⟩ ⟨"u", "b", none⟩
    (by decide)).2.1

/-- The destination directory is untouched by `focus_download`. -/
lemma focus_download_destdir (m : GuiBuildDownloadManagerState) (bi : BuildInfo) :
    (focus_download m bi).1.destdir = m.destdir := by
  unfold focus_download download
  dsimp only
  split <;> rfl

/-- The build info returned by `focus_download` carries the computed
destination in `build_path`. -/
lemma focus_build_path (m : GuiBuildDownloadManagerState) (bi : BuildInfo) :
    (focus_download m bi).2.1.build_path = some (get_dest m.destdir bi.fname) := rfl

/-- `focus_download` emits either no download event or a single
`download_started`. -/
lemma focus_events_cases (m : GuiBuildDownloadManagerState) (bi : BuildInfo) :
    (focus_download m bi).2.2 = [] ∨
    (focus_download m bi).2.2 = [Event.download_started] := by
  cases hb : (download (cancel m fun dl => get_dest m.destdir bi.fname != dl.dest)
      (get_dest m.destdir bi.fname)).2
  · left
    simp [focus_download, hb]
  · right
    simp [focus_download, hb]

/-- A download completion matching the focused destination, uncancelled and
error-free, passes the `_build_dl_finished` guard. -/
lemma guard_of_matching (bi : BuildInfo) (dl : DownloadEntry) (d : String)
    (hb : bi.build_path = some d) (h3 : dl.dest = d) (h4 : dl.canceled = false)
    (h5 : dl.error = none) : build_dl_scheduled bi dl = true := by
  unfold build_dl_scheduled
  simp [hb, h3, h4, h5]

/-- `_bisect_next` when `search_mid_point` raises a `MozRegressionError`. -/
lemma bisect_next_raised (st : GuiBisectorState) (s : StepScript) (e : String)
    (h : s.search = SearchOutcome.raised e) :
    GuiBisector.bisect_next st s =
      ({ st with step_num := st.step_num + 1, error := some e },
       [Event.step_started (st.step_num + 1), Event.finished Bisection.EXCEPTION],
       none) := by
  unfold GuiBisector.bisect_next GuiBisector.finish_on_exception
  rw [h]

/-- `_bisect_next` when `init_handler` returns a non-`running` code. -/
lemma bisect_next_terminal (st : GuiBisectorState) (s : StepScript) (mid : Nat)
    (h1 : s.search = SearchOutcome.found mid)
    (h2 : s.initResult ≠ Bisection.RUNNING) :
    GuiBisector.bisect_next st s =
      ({ st with step_num := st.step_num + 1, mid := some mid },
       [Event.step_started (st.step_num + 1), Event.finished s.initResult],
       none) := by
  unfold GuiBisector.bisect_next
  rw [h1]
  simp [h2]

/-- `_bisect_next` when the step proceeds to a focused download. -/
lemma bisect_next_running (st : GuiBisectorState) (s : StepScript) (mid : Nat)
    (h1 : s.search = SearchOutcome.found mid)
    (h2 : s.initResult = Bisection.RUNNING) :
    GuiBisector.bisect_next st s =
      (afterFocusState st s mid, focusStepEvents st s,
       some (focus_download st.download_manager ⟨s.build_url, s.fname, none⟩).2.1) := by
  unfold GuiBisector.bisect_next afterFocusState focusStepEvents
  rw [h1]
  simp [h2]

/-- One loop iteration whose midpoint search raises: the run ends with the
`exception` sentinel. -/
lemma bisectSteps_cons_raised (st : GuiBisectorState) (s : StepScript)
    (rest : List StepScript) (e : String)
    (h : s.search = SearchOutcome.raised e) :
    bisectSteps st (s :: rest) =
      ({ st with step_num := st.step_num + 1, error := some e },
       [Event.step_started (st.step_num + 1),
        Event.finished Bisection.EXCEPTION]) := by
  simp only [bisectSteps, bisect_next_raised st s e h]

/-- One loop iteration whose `init_handler` answers a non-`running` code:
the run ends with that code. -/
lemma bisectSteps_cons_terminal (st : GuiBisectorState) (s : StepScript)
    (rest : List StepScript) (mid : Nat)
    (h1 : s.search = SearchOutcome.found mid)
    (h2 : s.initResult ≠ Bisection.RUNNING) :
    bisectSteps st (s :: rest) =
      ({ st with step_num := st.step_num + 1, mid := some mid },
       [Event.step_started (st.step_num + 1), Event.finished s.initResult]) := by
  simp only [bisectSteps, bisect_next_terminal st s mid h1 h2]

/-- One loop iteration whose download completion is dropped by the
`_build_dl_finished` guard: the run stalls with no further event. -/
lemma bisectSteps_cons_dropped (st : GuiBisectorState) (s : StepScript)
    (rest : List StepScript) (mid : Nat)
    (h1 : s.search = SearchOutcome.found mid)
    (h2 : s.initResult = Bisection.RUNNING)
    (hg : build_dl_scheduled
        (focus_download st.download_manager ⟨s.build_url, s.fname, none⟩).2.1
        s.dl = false) :
    bisectSteps st (s :: rest) =
      (afterFocusState st s mid,
       focusStepEvents st s ++ [Event.download_finished]) := by
  simp only [bisectSteps, bisect_next_running st s mid h1 h2, hg]
  simp

/-- One loop iteration whose `handle_verdict` answers a non-`running` code:
the run ends with that code after the evaluation events. -/
lemma bisectSteps_cons_finishing (st : GuiBisectorState) (s : StepScript)
    (rest : List StepScript) (mid : Nat)
    (h1 : s.search = SearchOutcome.found mid)
    (h2 : s.initResult = Bisection.RUNNING)
    (hg : build_dl_scheduled
        (focus_download st.download_manager ⟨s.build_url, s.fname, none⟩).2.1
        s.dl = true)
    (h6 : s.verdictResult ≠ Bisection.RUNNING) :
    bisectSteps st (s :: rest) =
      (afterFocusState st s mid,
       focusStepEvents st s ++
         [Event.download_finished, Event.evaluate_started,
          Event.evaluate_finished,
          Event.step_finished (st.step_num + 1) s.verdict,
          Event.finished s.verdictResult]) := by
  simp only [bisectSteps, bisect_next_running st s mid h1 h2, hg,
    GuiBisector.evaluate_finished_slot]
  simp [h6, afterFocusState, List.append_assoc]

/-- One loop iteration that keeps running: the step's events are followed by
whatever the remaining script produces from the post-focus state. -/
lemma bisectSteps_cons_running (st : GuiBisectorState) (s : StepScript)
    (rest : List StepScript) (mid : Nat)
    (h1 : s.search = SearchOutcome.found mid)
    (h2 : s.initResult = Bisection.RUNNING)
    (hg : build_dl_scheduled
        (focus_download st.download_manager ⟨s.build_url, s.fname, none⟩).2.1
        s.dl = true)
    (h6 : s.verdictResult = Bisection.RUNNING) :
    bisectSteps st (s :: rest) =
      ((bisectSteps (afterFocusState st s mid) rest).1,
       (focusStepEvents st s ++
         [Event.download_finished, Event.evaluate_started,
          Event.evaluate_finished,
          Event.step_finished (st.step_num + 1) s.verdict]) ++
         (bisectSteps (afterFocusState st s mid) rest).2) := by
  simp only [bisectSteps, bisect_next_running st s mid h1 h2, hg,
    GuiBisector.evaluate_finished_slot]
  simp [h6, afterFocusState, List.append_assoc]

/-- `stepIndices` distributes over append. -/
lemma stepIndices_append (l1 l2 : List Event) :
    stepIndices (l1 ++ l2) = stepIndices l1 ++ stepIndices l2 := by
  simp [stepIndices]

/-- `finishedCodes` distributes over append. -/
lemma finishedCodes_append (l1 l2 : List Event) :
    finishedCodes (l1 ++ l2) = finishedCodes l1 ++ finishedCodes l2 := by
  simp [finishedCodes]

/-- A focused step emits exactly one `step_started`, at the next index. -/
lemma stepIndices_focus (st : GuiBisectorState) (s : StepScript) :
    stepIndices (focusStepEvents st s) = [st.step_num + 1] := by
  rcases focus_events_cases st.download_manager ⟨s.build_url, s.fname, none⟩ with h | h <;>
    simp [focusStepEvents, stepIndices, h]

/-- A focused step emits no `finished` event. -/
lemma finishedCodes_focus (st : GuiBisectorState) (s : StepScript) :
    finishedCodes (focusStepEvents st s) = [] := by
  rcases focus_events_cases st.download_manager ⟨s.build_url, s.fname, none⟩ with h | h <;>
    simp [focusStepEvents, finishedCodes, h]

/-- The whole-run trace is `started` followed by the loop trace from the
fresh state (`_bisect` resets `_step_num` to 0, which is already the
`__init__` value). -/
lemma runTrace_eq (destdir : String) (script : List StepScript) :
    runTrace destdir script =
      ((bisectSteps (GuiBisector.initState destdir) script).1,
       Event.started :: (bisectSteps (GuiBisector.initState destdir) script).2) := rfl

/-- Running a prefix of continuing steps only advances the trace: the
remaining script runs from a state `l.length` steps further on, the prefix
emits no `finished` event, and its `step_started` indices are exactly the
next `l.length` consecutive indices. -/
lemma bisectSteps_append_continues (l : List StepScript) (st : GuiBisectorState)
    (rest : List StepScript)
    (h : ∀ t ∈ l, ContinuesStep st.download_manager.destdir t) :
    ∃ st1 evs1,
      bisectSteps st (l ++ rest) =
        ((bisectSteps st1 rest).1, evs1 ++ (bisectSteps st1 rest).2) ∧
      st1.step_num = st.step_num + l.length ∧
      st1.download_manager.destdir = st.download_manager.destdir ∧
      finishedCodes evs1 = [] ∧
      stepIndices evs1 = List.range' (st.step_num + 1) l.length := by
  induction l generalizing st with
  | nil =>
      exact ⟨st, [], by simp, by simp, rfl, rfl, by simp [stepIndices]⟩
  | cons s t ih =>
      obtain ⟨⟨mid, h1⟩, h2, h3, h4, h5, h6⟩ := h s (List.mem_cons_self s t)
      have hg : build_dl_scheduled
          (focus_download st.download_manager ⟨s.build_url, s.fname, none⟩).2.1
          s.dl = true :=
        guard_of_matching _ _ _ (focus_build_path _ _) h3 h4 h5
      have hdd : (afterFocusState st s mid).download_manager.destdir =
          st.download_manager.destdir :=
        focus_download_destdir _ _
      obtain ⟨st1, evs1, heq, hsn, hd2, hfc, hsi⟩ := ih (afterFocusState st s mid)
        (by
          intro u hu
          rw [hdd]
          exact h u (List.mem_cons_of_mem s hu))
      refine ⟨st1,
        (focusStepEvents st s ++
          [Event.download_finished, Event.evaluate_started,
           Event.evaluate_finished,
           Event.step_finished (st.step_num + 1) s.verdict]) ++ evs1,
        ?_, ?_, ?_, ?_, ?_⟩
      · rw [List.cons_append,
          bisectSteps_cons_running st s (t ++ rest) mid h1 h2 hg h6, heq]
        simp [List.append_assoc]
      · rw [hsn]
        simp only [afterFocusState, List.length_cons]
        omega
      · rw [hd2, hdd]
      · rw [finishedCodes_append, finishedCodes_append, hfc,
          finishedCodes_focus]
        rfl
      · rw [stepIndices_append, stepIndices_append, hsi, stepIndices_focus]
        have hafter : (afterFocusState st s mid).step_num = st.step_num + 1 := rfl
        rw [hafter]
        simp [stepIndices, List.range'_succ]

/-- C4: a `download_finished` event delivered to `_build_dl_finished` leads
to an evaluation being scheduled exactly when the task's destination equals
the focused build's `build_path`, the task is not cancelled and it carries
no error; a stale, cancelled or failed completion is dropped by the early
`return` (no evaluation, no retry, no report, no state written). -/
theorem build_dl_finished_schedules_iff (bi : BuildInfo) (dl : DownloadEntry) :
    build_dl_scheduled bi dl = true ↔
      (some dl.dest = bi.build_path ∧ dl.canceled = false ∧ dl.error = none) := by
  unfold build_dl_scheduled
  by_cases hd : some dl.dest = bi.build_path
  · cases hc : dl.canceled <;> rcases he : dl.error with _ | msg <;>
      simp [hd, hc, he]
  · simp [hd]

/-- C9: `focus_download` always writes the computed destination into
`build_info['build_path']` before returning — also when no new download
starts because the target is already tracked — and this field is exactly
the key `_build_dl_finished` later compares incoming completions against:
the guard reduces to comparing the task's destination with that computed
destination. -/
theorem focus_download_sets_build_path (m : GuiBuildDownloadManagerState)
    (bi : BuildInfo) :
    ((focus_download m bi).2.1.build_path = some (get_dest m.destdir bi.fname)) ∧
    ∀ dl : DownloadEntry,
      build_dl_scheduled (focus_download m bi).2.1 dl =
        ((dl.dest == get_dest m.destdir bi.fname) && !dl.canceled && !dl.error.isSome) := by
  refine ⟨rfl, fun dl => ?_⟩
  show build_dl_scheduled { bi with build_path := some (get_dest m.destdir bi.fname) } dl = _
  unfold build_dl_scheduled
  by_cases hd : dl.dest = get_dest m.destdir bi.fname
  · cases hc : dl.canceled <;> cases he : dl.error <;> simp [hd, hc, he]
  · simp [hd]

/-- C1: when `search_mid_point` raises a `MozRegressionError` on some step
(after any number of steps that kept the run going), `_finish_on_exception`
stores the captured failure context in the bisector's `error` field, the
run's whole trace carries exactly one `finished` event whose code is
`Bisection.EXCEPTION`, and the trace from that step's `step_started` on is
exactly `[step_started, finished]` — so no download or evaluation event
occurs on the failing step or on any later step. -/
theorem search_raised_ends_run (destdir : String) (l : List StepScript)
    (s : StepScript) (rest : List StepScript) (e : String)
    (hl : ∀ t ∈ l, ContinuesStep destdir t)
    (hs : s.search = SearchOutcome.raised e) :
    (runTrace destdir (l ++ s :: rest)).1.error = some e ∧
    finishedCodes (runTrace destdir (l ++ s :: rest)).2 = [Bisection.EXCEPTION] ∧
    ∃ evs0, (runTrace destdir (l ++ s :: rest)).2 =
        evs0 ++ [Event.step_started (l.length + 1),
          Event.finished Bisection.EXCEPTION] ∧
      finishedCodes evs0 = [] := by
  obtain ⟨st1, evs1, heq, hsn, hdd, hfc, hsi⟩ :=
    bisectSteps_append_continues l (GuiBisector.initState destdir) (s :: rest) hl
  have hend := bisectSteps_cons_raised st1 s rest e hs
  have hn : st1.step_num = l.length := by
    rw [hsn]
    simp [GuiBisector.initState]
  refine ⟨?_, ?_, Event.started :: evs1, ?_, ?_⟩
  · rw [runTrace_eq, heq, hend]
  · rw [runTrace_eq, heq, hend]
    show finishedCodes (evs1 ++ _) = _
    rw [finishedCodes_append, hfc]
    rfl
  · rw [runTrace_eq, heq, hend, hn]
    rfl
  · show finishedCodes evs1 = []
    exact hfc

/-- Witness for `search_raised_ends_run`: one-step run whose first midpoint
search raises "boom". -/
theorem search_raised_ends_run_witness :
    (runTrace "d" [stepRaisesW]).1.error = some "boom" ∧
    finishedCodes (runTrace "d" [stepRaisesW]).2 = [Bisection.EXCEPTION] :=
  ⟨(search_raised_ends_run "d" [] stepRaisesW [] "boom"
      (by intro t ht; exact absurd ht (List.not_mem_nil t)) rfl).1,
   (search_raised_ends_run "d" [] stepRaisesW [] "boom"
      (by intro t ht; exact absurd ht (List.not_mem_nil t)) rfl).2.1⟩

/-- On any script, the `step_started` indices of the loop trace are the
consecutive indices following the state's step counter. -/
lemma stepIndices_bisectSteps (l : List StepScript) (st : GuiBisectorState) :
    ∃ k, stepIndices (bisectSteps st l).2 = List.range' (st.step_num + 1) k := by
  induction l generalizing st with
  | nil => exact ⟨0, by simp [bisectSteps, stepIndices]⟩
  | cons s t ih =>
      rcases hsearch : s.search with e | mid
      · refine ⟨1, ?_⟩
        rw [bisectSteps_cons_raised st s t e hsearch]
        simp [stepIndices]
      · by_cases h2 : s.initResult = Bisection.RUNNING
        · by_cases hg : build_dl_scheduled
              (focus_download st.download_manager ⟨s.build_url, s.fname, none⟩).2.1
              s.dl = true
          · by_cases h6 : s.verdictResult = Bisection.RUNNING
            · obtain ⟨k, hk⟩ := ih (afterFocusState st s mid)
              refine ⟨k + 1, ?_⟩
              rw [bisectSteps_cons_running st s t mid hsearch h2 hg h6,
                stepIndices_append, stepIndices_append, stepIndices_focus, hk]
              have hafter : (afterFocusState st s mid).step_num = st.step_num + 1 := rfl
              rw [hafter]
              simp [stepIndices, List.range'_succ]
            · refine ⟨1, ?_⟩
              rw [bisectSteps_cons_finishing st s t mid hsearch h2 hg h6,
                stepIndices_append, stepIndices_focus]
              simp [stepIndices]
          · refine ⟨1, ?_⟩
            rw [bisectSteps_cons_dropped st s t mid hsearch h2 (by simpa using hg),
              stepIndices_append, stepIndices_focus]
            simp [stepIndices]
        · refine ⟨1, ?_⟩
          rw [bisectSteps_cons_terminal st s t mid hsearch h2]
          simp [stepIndices]

/-- C2: over any run, the indices carried by the `step_started` events form
the gap-free sequence 1, 2, 3, …: the counter starts from 0 when the
`Bisection` is created in `_bisect` and `_bisect_next` increments it by
exactly one at the start of each step, and the trace ends at the first
terminal `finished` event, producing `List.range' 1 k` for some `k`. -/
theorem step_indices_form_range (destdir : String) (script : List StepScript) :
    ∃ k, stepIndices (runTrace destdir script).2 = List.range' 1 k := by
  obtain ⟨k, hk⟩ := stepIndices_bisectSteps script (GuiBisector.initState destdir)
  refine ⟨k, ?_⟩
  rw [runTrace_eq]
  show stepIndices (bisectSteps (GuiBisector.initState destdir) script).2 = _
  exact hk

/-- C5: when `init_handler` answers a non-`running` code on the very first
step, the whole trace is `started`, `step_started 1` and a single
`finished` event carrying that code: no download event, no evaluation
event, no download focused (`build_infos` stays unset and the manager
tracks nothing). -/
theorem init_terminal_no_download (destdir : String) (s : StepScript)
    (rest : List StepScript) (mid : Nat)
    (h1 : s.search = SearchOutcome.found mid)
    (h2 : s.initResult ≠ Bisection.RUNNING) :
    (runTrace destdir (s :: rest)).2 =
      [Event.started, Event.step_started 1, Event.finished s.initResult] ∧
    finishedCodes (runTrace destdir (s :: rest)).2 = [s.initResult] ∧
    (∀ ev ∈ (runTrace destdir (s :: rest)).2, isDlOrEval ev = false) ∧
    (runTrace destdir (s :: rest)).1.build_infos = none ∧
    (runTrace destdir (s :: rest)).1.download_manager.downloads = [] := by
  have h := bisectSteps_cons_terminal (GuiBisector.initState destdir) s rest mid h1 h2
  rw [runTrace_eq, h]
  refine ⟨rfl, rfl, ?_, rfl, rfl⟩
  intro ev hev
  simp only [List.mem_cons, List.not_mem_nil, or_false] at hev
  rcases hev with h' | h' | h' <;> subst h' <;> rfl

/-- Witness for `init_terminal_no_download`: a first step whose
`init_handler` answers `finished` right away. -/
theorem init_terminal_no_download_witness :
    (runTrace "d" [stepTerminalW]).2 =
      [Event.started, Event.step_started 1,
       Event.finished stepTerminalW.initResult] ∧
    finishedCodes (runTrace "d" [stepTerminalW]).2 = [stepTerminalW.initResult] ∧
    (runTrace "d" [stepTerminalW]).1.build_infos = none :=
  ⟨(init_terminal_no_download "d" stepTerminalW [] 5 rfl (by decide)).1,
   (init_terminal_no_download "d" stepTerminalW [] 5 rfl (by decide)).2.1,
   (init_terminal_no_download "d" stepTerminalW [] 5 rfl (by decide)).2.2.2.1⟩

/-- C10: the evaluation dialog of the driving context produces `"g"` exactly
when the user answers Yes and `"b"` exactly when the user answers No (the
only other possible answer); the `"s"` (skip) and `"e"` (exception/abort)
verdicts are never passed to `finish` through this interface. -/
theorem evaluate_verdict_cases (res : QuestionAnswer) (tr : GuiTestRunnerState) :
    (BisectRunner.evaluate_verdict res = "g" ↔ res = QuestionAnswer.yes) ∧
    (BisectRunner.evaluate_verdict res = "b" ↔ res = QuestionAnswer.no) ∧
    ((BisectRunner.evaluate res tr).1 = BisectRunner.evaluate_verdict res) ∧
    BisectRunner.evaluate_verdict res ≠ "s" ∧
    BisectRunner.evaluate_verdict res ≠ "e" := by
  cases res <;> simp [BisectRunner.evaluate_verdict, BisectRunner.evaluate]

/-- C6: `GuiTestRunner.finish(verdict)` with no launcher in flight (no
preceding `evaluate`) fails the `assert self.launcher` precondition; with a
launcher in flight it stops the launched build, records the verdict, emits
`evaluate_finished` and clears the launcher field — the in-flight marker —
so that a subsequent `evaluate` is permitted again. -/
theorem finish_requires_evaluate (st : GuiTestRunnerState) (v : String) :
    (st.launcher = none →
      GuiTestRunner.finish st v =
        Except.error "AssertionError: assert self.launcher") ∧
    (∀ handle, st.launcher = some handle →
      GuiTestRunner.finish st v =
        Except.ok ({ st with verdict := some v, launcher := none },
          [Event.evaluate_finished],
          [LauncherAction.launch_stopped handle])) := by
  constructor
  · intro h
    simp [GuiTestRunner.finish, h]
  · intro handle h
    simp [GuiTestRunner.finish, h]

/-- Witness for `finish_requires_evaluate` at concrete states: a runner with
no launcher is rejected, a runner with launcher 1 succeeds and ends with no
launcher. -/
theorem finish_requires_evaluate_witness :
    GuiTestRunner.finish ⟨[], none, none⟩ "g" =
      Except.error "AssertionError: assert self.launcher" ∧
    GuiTestRunner.finish ⟨[], none, some 1⟩ "b" =
      Except.ok (⟨[], some "b", none⟩, [Event.evaluate_finished],
        [LauncherAction.launch_stopped 1]) :=
  ⟨(finish_requires_evaluate ⟨[], none, none⟩ "g").1 rfl,
   (finish_requires_evaluate ⟨[], none, some 1⟩ "b").2 1 rfl⟩

/-- After `stop()` the runner holds neither a bisector nor a thread. -/
lemma stop_state_free (st : BisectRunnerState) :
    (BisectRunner.stop st).1 = ⟨none, none⟩ := by
  unfold BisectRunner.stop
  cases st.bisector <;> rfl

/-- Every download of the run torn down by `stop()` ends up cancelled. -/
lemma stop_downloads_canceled (st : BisectRunnerState) :
    ∀ dl ∈ (BisectRunner.stop st).2, dl.canceled = true := by
  unfold BisectRunner.stop
  rcases st.bisector with _ | b
  · simp
  · intro dl hdl
    simp only [cancel, List.mem_map] at hdl
    obtain ⟨a, _, ha⟩ := hdl
    simp at ha
    exact ha ▸ rfl

/-- C7: `BisectRunner.stop` is idempotent and safe without an active run:
with no bisector and no thread it is a no-op; after one call the controller
is resource-free (no bisector, no thread handle); a second call from that
state changes nothing further; and every download tracked by the stopped
run has been cancelled by `download_manager.cancel()`. -/
theorem stop_idempotent (st : BisectRunnerState) :
    BisectRunner.stop ⟨none, none⟩ = (⟨none, none⟩, []) ∧
    (BisectRunner.stop st).1 = ⟨none, none⟩ ∧
    BisectRunner.stop (BisectRunner.stop st).1 = ((BisectRunner.stop st).1, []) ∧
    ∀ dl ∈ (BisectRunner.stop st).2, dl.canceled = true := by
  refine ⟨by rfl, stop_state_free st, ?_, stop_downloads_canceled st⟩
  rw [stop_state_free st]
  rfl

/-- Witness for `stop_idempotent`: stopping a runner that tracks one live
download leaves that download cancelled. -/
theorem stop_idempotent_witness :
    (⟨"d/a", true, none⟩ : DownloadEntry).canceled = true :=
  (stop_idempotent
      ⟨some ⟨⟨"d", [⟨"d/a", false, none⟩]⟩, none, none, 0, none⟩, some ()⟩).2.2.2
    ⟨"d/a", true, none⟩ (by decide)

/-- C8: on every terminal `finished` delivery, `bisection_finished` maps
`Bisection.NO_DATA` to the "not enough data" outcome, `Bisection.EXCEPTION`
to the failure outcome carrying the bisector's captured error, and every
other non-`running` code to the "bisection complete" outcome; in all three
cases `stop()` runs afterwards, leaving the controller resource-free with
all of the run's downloads cancelled. -/
theorem bisection_finished_mapping (st : BisectRunnerState) (b : GuiBisectorState)
    (code : Int) (hb : st.bisector = some b) :
    (code = Bisection.NO_DATA →
      (BisectRunner.bisection_finished st code).1 = Outcome.not_enough_data) ∧
    (code = Bisection.EXCEPTION →
      (BisectRunner.bisection_finished st code).1 = Outcome.failure b.error) ∧
    (code ≠ Bisection.RUNNING → code ≠ Bisection.NO_DATA → code ≠ Bisection.EXCEPTION →
      (BisectRunner.bisection_finished st code).1 = Outcome.complete) ∧
    (BisectRunner.bisection_finished st code).2 = BisectRunner.stop st ∧
    (BisectRunner.bisection_finished st code).2.1 = ⟨none, none⟩ ∧
    ∀ dl ∈ (BisectRunner.bisection_finished st code).2.2, dl.canceled = true := by
  refine ⟨?_, ?_, ?_, rfl, stop_state_free st, stop_downloads_canceled st⟩
  · intro h
    simp [BisectRunner.bisection_finished, h]
  · intro h
    simp [BisectRunner.bisection_finished, h, Bisection.NO_DATA, Bisection.EXCEPTION, hb]
  · intro _ h1 h2
    simp [BisectRunner.bisection_finished, h1, h2]

/-- Witness for `bisection_finished_mapping` at a concrete runner whose
bisector captured the error "boom": codes 1, -1 and 2 land in the three
outcome categories and the controller ends resource-free. -/
theorem bisection_finished_mapping_witness :
    (BisectRunner.bisection_finished runnerW Bisection.NO_DATA).1 =
      Outcome.not_enough_data ∧
    (BisectRunner.bisection_finished runnerW Bisection.EXCEPTION).1 =
      Outcome.failure (some "boom") ∧
    (BisectRunner.bisection_finished runnerW Bisection.FINISHED).1 =
      Outcome.complete ∧
    (BisectRunner.bisection_finished runnerW Bisection.FINISHED).2.1 =
      ⟨none, none⟩ :=
  ⟨(bisection_finished_mapping runnerW bisectorW Bisection.NO_DATA rfl).1 rfl,
   (bisection_finished_mapping runnerW bisectorW Bisection.EXCEPTION rfl).2.1 rfl,
   (bisection_finished_mapping runnerW bisectorW Bisection.FINISHED rfl).2.2.1
     (by decide) (by decide) (by decide),
   (bisection_finished_mapping runnerW bisectorW Bisection.FINISHED rfl).2.2.2.2.1⟩

end MozReg

